import Mathlib

/-!
Shallow embedding of the statistical-aggregation core of
src/eda_functions.py (customer demand analysis toolkit), together with
theorems settling the specification claims about it.

Modelling conventions:
* pandas cell values are modelled by PyVal (a categorical string or an
  exact rational number standing for a float);
* a DataFrame row is a total function from column names to values and a
  Dataset carries its column schema, so a missing-column access is the
  KeyError case;
* pandas/NumPy rounding (round-half-even) is modelled exactly on ℚ;
* fallible calls return Except Err, mirroring the Python exceptions
  (KeyError for a missing column, AttributeError for .lower() on a
  non-string, TypeError for aggregating non-numeric data).
-/

attribute [local semireducible] Rat.mul Rat.inv Rat.add Rat.sub Rat.ofScientific

/-- A Python value as found in a DataFrame cell: a string or a number.
Numbers are modelled as exact rationals. -/
inductive PyVal : Type
  | str : String → PyVal
  | num : ℚ → PyVal
deriving DecidableEq, Repr

/-- Numeric view of a cell; non-numeric cells are guarded against before
this is used (mirroring the TypeError pandas raises on aggregation). -/
def PyVal.toNum : PyVal → ℚ
  | .num q => q
  | .str _ => 0

/-- Whether a cell holds a number. -/
def PyVal.isNum : PyVal → Bool
  | .num _ => true
  | .str _ => false

/-- Python str.lower() on a value: raises AttributeError on non-strings. -/
inductive Err : Type
  | columnNotFound
  | attributeError
  | typeError
deriving DecidableEq, Repr

deriving instance DecidableEq for Except

/-- Python str.lower(), per character (the filter values in play are
ASCII categorical labels). -/
def strLower (s : String) : String := String.mk (s.data.map Char.toLower)

/-- filter_value.lower() from the source: only strings have .lower(). -/
def pyLower : PyVal → Except Err String
  | .str s => .ok (strLower s)
  | .num _ => .error .attributeError

/-- A DataFrame row: a total mapping from the schema's column names to
cell values. -/
def Row : Type := String → PyVal

/-- An in-memory DataFrame: a column schema plus a list of rows. -/
structure Dataset : Type where
  cols : List String
  rows : List Row

/-- The column of a Dataset, as the list of its cell values in row order. -/
def columnOf (D : Dataset) (c : String) : List PyVal := D.rows.map fun r => r c

/-- Floor of a rational number, computed on the numerator/denominator. -/
def qfloor (x : ℚ) : ℤ := Int.fdiv x.num (x.den : ℤ)

/-- Round-half-even of a rational to an integer, the convention used by
Python round() and NumPy/pandas .round(). -/
def roundHalfEven (x : ℚ) : ℤ :=
  let f := qfloor x
  let frac := x - (f : ℚ)
  if frac < 1/2 then f
  else if 1/2 < frac then f + 1
  else if f % 2 = 0 then f else f + 1

/-- .round(2): round to 2 decimal places, half to even. -/
def round2 (x : ℚ) : ℚ := ((roundHalfEven (x * 100) : ℤ) : ℚ) / 100

/-- Worker for distincts: emits each value not already seen, in order. -/
def distinctsAux {α : Type} [DecidableEq α] : List α → List α → List α
  | _, [] => []
  | seen, x :: xs =>
    if x ∈ seen then distinctsAux seen xs else x :: distinctsAux (x :: seen) xs

/-- The distinct values of a list in order of first appearance; the value
domain over which value_counts and groupby aggregate. -/
def distincts {α : Type} [DecidableEq α] (l : List α) : List α := distinctsAux [] l

/-- get_total_revenue from the source: piecewise take-rate revenue of a
single order cost. -/
def get_total_revenue (x uL lL : ℚ) : ℚ :=
  if x > 20 then x * uL
  else if x > 5 then x * lL
  else 0

/-- Insert an element into a sorted list, before the first element it
compares le to (keeping equal keys stable). -/
def insertSorted {α : Type} (le : α → α → Bool) (x : α) : List α → List α
  | [] => [x]
  | y :: ys => if le x y then x :: y :: ys else y :: insertSorted le x ys

/-- Stable sort by the given comparison; models a pandas sort_values call
(whose order among tied keys pandas leaves unspecified). -/
def sortBy {α : Type} (le : α → α → Bool) : List α → List α
  | [] => []
  | x :: xs => insertSorted le x (sortBy le xs)

/-- pandas Series.value_counts: occurrence count per distinct value,
sorted by count (ascending per flag, descending by default). pandas
leaves the order of tied counts unspecified (quicksort); it is modelled
here as stable over first appearance. -/
def value_counts (xs : List PyVal) (ascending : Bool) : List (PyVal × Nat) :=
  sortBy (fun a b => if ascending then decide (a.2 ≤ b.2) else decide (b.2 ≤ a.2))
    ((distincts xs).map fun v => (v, xs.countP (fun y => y == v)))

/-- One record of a Distribution result: a category value, its count and
its percentage share rounded to 2 decimals. -/
structure DistRow : Type where
  value : PyVal
  count : Nat
  percentage : ℚ
deriving DecidableEq, Repr

/-- DataFrame.head(n): the first n rows, or all rows when n is None. -/
def headOpt {α : Type} (l : List α) : Option Nat → List α
  | none => l
  | some k => l.take k

/-- feature_stats from the source: counts and percentage distribution of
the unique values of a column, optionally truncated to the first n rows. -/
def feature_stats (D : Dataset) (feature : String) (n : Option Nat) :
    Except Err (List DistRow) :=
  if feature ∈ D.cols then
    Except.ok (headOpt ((value_counts (columnOf D feature) false).map fun p =>
      ⟨p.1, p.2, round2 ((p.2 : ℚ) / ((columnOf D feature).length : ℚ) * 100)⟩) n)
  else .error .columnNotFound

/-- A constant row, used by concrete test Datasets. -/
def rowC (v : PyVal) : Row := fun _ => v

/-- A 3-row Dataset with one categorical column taking values A, A, B. -/
def D3 : Dataset :=
  ⟨["cuisine"], [rowC (.str ("A")), rowC (.str ("A")), rowC (.str ("B"))]⟩

/-- One record of a Filtered Distribution result. -/
structure FiltRow : Type where
  value : PyVal
  count : Nat
  percentage : ℚ
deriving DecidableEq, Repr

/-- A Filtered Distribution result: the filter-value-suffixed column
names and the per-category rows. -/
structure FiltResult : Type where
  countName : String
  percentageName : String
  rows : List FiltRow
deriving DecidableEq, Repr

/-- feature_filtered_stats from the source: restrict to rows matching an
equality filter, then compute per-value counts and percentage shares of
the target column, in columns named after the lowercased filter value. -/
def feature_filtered_stats (D : Dataset) (feature filter_column : String)
    (filter_value : PyVal) (ascending_sort : Bool) : Except Err FiltResult :=
  if filter_column ∈ D.cols then
    if feature ∈ D.cols then
      (pyLower filter_value).map fun s =>
        let filtered := D.rows.filter fun r => r filter_column == filter_value
        let counts := value_counts (filtered.map fun r => r feature) ascending_sort
        let total := (counts.map Prod.snd).sum
        ⟨"count_" ++ s, "percentage_" ++ s,
          counts.map fun p => ⟨p.1, p.2, round2 ((p.2 : ℚ) / (total : ℚ) * 100)⟩⟩
    else .error .columnNotFound
  else .error .columnNotFound

/-- A 1-row Dataset with a numeric column qty = 5. -/
def Dnum : Dataset := ⟨["qty"], [rowC (.num 5)]⟩

/-- One record of a Metric Table, in source column order metric/unit/value. -/
structure Metric : Type where
  metric : String
  unit : String
  value : ℚ
deriving DecidableEq, Repr

/-- metrics_to_dataframe from the source: Python keyword arguments are
modelled as the list of (name, (value, unit)) pairs in the caller's
insertion order, which Python guarantees for kwargs. -/
def metrics_to_dataframe (kwargs : List (String × ℚ × String)) : List Metric :=
  kwargs.map fun p => ⟨p.1, p.2.2, round2 p.2.1⟩

/-- The arithmetic mean of a list of rationals (pandas mean). -/
def meanQ (xs : List ℚ) : ℚ := xs.sum / (xs.length : ℚ)

/-- Sample variance with the N-1 denominator (pandas default ddof=1);
none models the NaN pandas yields for groups of fewer than two values. -/
def sampleVar (xs : List ℚ) : Option ℚ :=
  if xs.length ≤ 1 then none
  else some ((xs.map fun x => (x - meanQ xs)^2).sum / ((xs.length : ℚ) - 1))

/-- .round(2) on a real number, for the standard-deviation column
(Mathlib round is half-up; no claim depends on a half-way real value). -/
noncomputable def round2R (x : ℝ) : ℝ := ((round (x * 100) : ℤ) : ℝ) / 100

/-- The standard deviation emitted for a group: square root of the sample
variance, rounded to 2 decimals. -/
noncomputable def stdOfVar (v : ℚ) : ℝ := round2R (Real.sqrt (v : ℝ))

/-- One record of a Grouped Moment result: group key, rounded mean and
rounded sample standard deviation (none models pandas NaN). -/
structure GroupRow : Type where
  key : PyVal
  mean : ℚ
  std : Option ℝ

/-- feature_grouped_stats from the source, for one group-by column and
one numeric feature column: per-group mean and sample standard deviation
of the feature, rounded to 2 decimals, keyed by the group value. Group
order is modelled as first appearance (pandas sorts keys; no claim
depends on the order). -/
noncomputable def feature_grouped_stats (D : Dataset) (gbfeature feature : String) :
    Except Err (List GroupRow) :=
  if gbfeature ∈ D.cols then
    if feature ∈ D.cols then
      if D.rows.all fun r => (r feature).isNum then
        .ok ((distincts (columnOf D gbfeature)).map fun k =>
          ⟨k, round2 (meanQ ((D.rows.filter fun r => r gbfeature == k).map
              fun r => (r feature).toNum)),
            (sampleVar ((D.rows.filter fun r => r gbfeature == k).map
              fun r => (r feature).toNum)).map stdOfVar⟩)
      else .error .typeError
    else .error .columnNotFound
  else .error .columnNotFound

/-- Single-row Dataset: group key k, numeric value 0.001. -/
def Dg : Dataset :=
  ⟨["g", "v"], [fun c => if c = "v" then PyVal.num 0.001 else PyVal.str ("k")]⟩

/-- Single-row Dataset: group key k, numeric value 0.25. -/
def Dg2 : Dataset :=
  ⟨["g", "v"], [fun c => if c = "v" then PyVal.num 0.25 else PyVal.str ("k")]⟩

/-- The restaurant name of a row: the source groups by this fixed column. -/
def nameOf (r : Row) : PyVal := r ("restaurant_name")

/-- The number of rows (deliveries) of the Dataset for the entity k. -/
def groupCount (D : Dataset) (k : PyVal) : Nat :=
  D.rows.countP fun r => nameOf r == k

/-- groupby("restaurant_name").filter(lambda x: len(x) > threshold) from
the source: the rows whose restaurant has strictly more than threshold
rows, in original order. -/
def qualifiedRows (D : Dataset) (t : Nat) : List Row :=
  D.rows.filter fun r => decide (t < D.rows.countP fun s => nameOf s == nameOf r)

/-- The qualifying entities: distinct restaurant names whose row count
strictly exceeds the threshold. -/
def qualifyingEntities (D : Dataset) (t : Nat) : List PyVal :=
  (distincts (D.rows.map nameOf)).filter fun k => decide (t < groupCount D k)

/-- Per-qualifying-restaurant mean of the feature column, sorted
ascending by the mean and then rounded to 2 decimals (the source sorts
before rounding). pandas leaves the order of tied means unspecified;
modelled stable over first appearance of the key. -/
def average_time (D : Dataset) (feature : String) (t : Nat) : List (PyVal × ℚ) :=
  (sortBy (fun a b => decide (a.2 ≤ b.2))
    ((distincts ((qualifiedRows D t).map nameOf)).map fun k =>
      (k, meanQ (((qualifiedRows D t).filter fun r => nameOf r == k).map
        fun r => (r feature).toNum)))).map fun p => (p.1, round2 p.2)

/-- One row of the ranked result: the reset_index label (kept by
pd.concat) together with the restaurant and its rounded average. -/
structure RankedRow : Type where
  label : Nat
  name : PyVal
  avg : ℚ
deriving DecidableEq, Repr

/-- reset_index: attach positional index labels starting at n. -/
def indexFrom {α : Type} (n : Nat) : List α → List (Nat × α)
  | [] => []
  | x :: xs => (n, x) :: indexFrom (n + 1) xs

/-- head(5) then tail(5) of the indexed ranking, concatenated while
keeping the index labels (pd.concat does not re-index and does not
deduplicate). -/
def concatTopBottom (l : List (PyVal × ℚ)) : List RankedRow :=
  ((indexFrom 0 l).take 5
    ++ (indexFrom 0 l).drop ((indexFrom 0 l).length - 5)).map
    fun p => ⟨p.1, p.2.1, p.2.2⟩

/-- The data rows of the styled output of top_and_bottom_restaurants. -/
def rankedRows (D : Dataset) (feature : String) (t : Nat) : List RankedRow :=
  concatTopBottom (average_time D feature t)

/-- top_and_bottom_restaurants from the source: restaurants with more
than delivery_threshold deliveries, averaged on the feature, sorted, and
the head-5 and tail-5 concatenated. Fails like the source when a column
is missing (KeyError) or the feature is not numeric (TypeError). -/
def top_and_bottom_restaurants (D : Dataset) (filter_feature : String)
    (delivery_threshold : Nat) : Except Err (List RankedRow) :=
  if ("restaurant_name" : String) ∈ D.cols then
    if filter_feature ∈ D.cols then
      if (qualifiedRows D delivery_threshold).all fun r => (r filter_feature).isNum then
        .ok (rankedRows D filter_feature delivery_threshold)
      else .error .typeError
    else .error .columnNotFound
  else .error .columnNotFound

/-- The styling rule add_upper_border of the source: a bottom border on
exactly the rows whose index label equals 4. -/
def add_upper_border (r : RankedRow) : Bool := r.label == 4

/-- The border markers of the styled output, one Bool per row. -/
def styledBorders (rs : List RankedRow) : List Bool := rs.map add_upper_border

/-- How many bottom-half (head-5) rows also occur in the top-half
(tail-5) part of the output, matched by their ranking label, which
identifies a record of the sorted ranking uniquely. -/
def halvesOverlap (rs : List RankedRow) : Nat :=
  ((rs.take 5).map RankedRow.label).countP fun i =>
    (rs.drop 5).any fun r => r.label == i

/-- A row with the fixed restaurant_name column and a numeric column. -/
def rowRT (name : String) (time : ℚ) : Row :=
  fun c => if c = "time" then PyVal.num time else PyVal.str name

/-- Restaurant Dataset: A has 2 deliveries, B has 1. -/
def Drest : Dataset :=
  ⟨["restaurant_name", "time"], [rowRT ("A") 10, rowRT ("A") 10, rowRT ("B") 5]⟩

/-- A 7-row Dataset with 7 distinct restaurants, times 1..7. -/
def D7 : Dataset :=
  ⟨["restaurant_name", "time"],
   [rowRT ("A") 1, rowRT ("B") 2, rowRT ("C") 3, rowRT ("D") 4,
    rowRT ("E") 5, rowRT ("F") 6, rowRT ("G") 7]⟩

/-- A Dataset with a single qualifying restaurant. -/
def D1 : Dataset := ⟨["restaurant_name", "time"], [rowRT ("A") 3]⟩

/-- A 10-row Dataset with 10 distinct restaurants, times 1..10. -/
def D10 : Dataset :=
  ⟨["restaurant_name", "time"],
   [rowRT ("A") 1, rowRT ("B") 2, rowRT ("C") 3, rowRT ("D") 4,
    rowRT ("E") 5, rowRT ("F") 6, rowRT ("G") 7, rowRT ("H") 8,
    rowRT ("I") 9, rowRT ("J") 10]⟩

/-- distinctsAux only cares about the seen accumulator up to membership. -/
theorem distinctsAux_congr {α : Type} [DecidableEq α] :
    ∀ (l s₁ s₂ : List α), (∀ a : α, a ∈ s₁ ↔ a ∈ s₂) →
      distinctsAux s₁ l = distinctsAux s₂ l := by
  intro l
  induction l with
  | nil => intro s₁ s₂ _; rfl
  | cons x xs ih =>
    intro s₁ s₂ hs
    rw [distinctsAux, distinctsAux]
    by_cases hx : x ∈ s₁
    · rw [if_pos hx, if_pos ((hs x).mp hx)]
      exact ih s₁ s₂ hs
    · rw [if_neg hx, if_neg (fun hc => hx ((hs x).mpr hc))]
      refine congrArg _ (ih _ _ fun a => ?_)
      simp only [List.mem_cons]
      exact or_congr Iff.rfl (hs a)

/-- Dropping occurrences of an already-seen value does not change
distinctsAux. -/
theorem distinctsAux_filter_seen {α : Type} [DecidableEq α] :
    ∀ (l seen : List α) (a : α), a ∈ seen →
      distinctsAux seen l = distinctsAux seen (l.filter fun y => decide ¬(y = a)) := by
  intro l
  induction l with
  | nil => intro seen a _; rfl
  | cons x xs ih =>
    intro seen a ha
    by_cases hxa : x = a
    · subst hxa
      have hfil : ((x :: xs).filter fun y => decide ¬(y = x))
          = xs.filter fun y => decide ¬(y = x) := by
        simp [List.filter_cons]
      rw [hfil, distinctsAux, if_pos ha]
      exact ih seen x ha
    · have hfil : ((x :: xs).filter fun y => decide ¬(y = a))
          = x :: (xs.filter fun y => decide ¬(y = a)) := by
        simp [List.filter_cons, hxa]
      rw [hfil, distinctsAux, distinctsAux]
      by_cases hx : x ∈ seen
      · rw [if_pos hx, if_pos hx]
        exact ih seen a ha
      · rw [if_neg hx, if_neg hx]
        exact congrArg _ (ih (x :: seen) a (List.mem_cons_of_mem _ ha))

/-- A seen entry matching nothing in the list can be dropped. -/
theorem distinctsAux_erase_seen {α : Type} [DecidableEq α] :
    ∀ (l seen : List α) (a : α), (∀ y ∈ l, ¬(y = a)) →
      distinctsAux (a :: seen) l = distinctsAux seen l := by
  intro l
  induction l with
  | nil => intro seen a _; rfl
  | cons x xs ih =>
    intro seen a h
    have hxa : ¬(x = a) := h x (List.mem_cons_self x xs)
    rw [distinctsAux, distinctsAux]
    by_cases hx : x ∈ seen
    · rw [if_pos (List.mem_cons_of_mem _ hx), if_pos hx]
      exact ih seen a fun y hy => h y (List.mem_cons_of_mem _ hy)
    · have hnot : ¬ x ∈ a :: seen := by
        simp only [List.mem_cons]
        rintro (rfl | hc)
        · exact hxa rfl
        · exact hx hc
      rw [if_neg hnot, if_neg hx]
      refine congrArg _ ?_
      rw [distinctsAux_congr xs (x :: a :: seen) (a :: x :: seen)
        (by intro b; simp only [List.mem_cons]; tauto)]
      exact ih (x :: seen) a fun y hy => h y (List.mem_cons_of_mem _ hy)

/-- distincts on an empty list. -/
theorem distincts_nil {α : Type} [DecidableEq α] : distincts ([] : List α) = [] := rfl

/-- The recursion law of distincts in the head-plus-filtered-tail form. -/
theorem distincts_cons {α : Type} [DecidableEq α] (x : α) (xs : List α) :
    distincts (x :: xs) = x :: distincts (xs.filter fun y => decide ¬(y = x)) := by
  rw [distincts, distinctsAux, if_neg (List.not_mem_nil x)]
  refine congrArg _ ?_
  rw [distinctsAux_filter_seen xs [x] x (List.mem_singleton_self x)]
  rw [distincts, distinctsAux_erase_seen _ [] x]
  intro y hy
  have := (List.mem_filter.mp hy).2
  simpa using this

/-- C1: get_total_revenue is total and piecewise with strict thresholds:
for every x, uL, lL, if x > 20 the result is x*uL, else if x > 5 the
result is x*lL, else 0; in particular revenue(20,uL,lL) = 20*lL,
revenue(5,uL,lL) = 0, revenue(20.01,0.3,0.2) = 6.003, and every negative
x yields 0. -/
theorem get_total_revenue_piecewise :
    (∀ x uL lL : ℚ,
      (20 < x → get_total_revenue x uL lL = x * uL)
      ∧ (x ≤ 20 → 5 < x → get_total_revenue x uL lL = x * lL)
      ∧ (x ≤ 5 → get_total_revenue x uL lL = 0))
    ∧ (∀ uL lL : ℚ, get_total_revenue 20 uL lL = 20 * lL)
    ∧ (∀ uL lL : ℚ, get_total_revenue 5 uL lL = 0)
    ∧ get_total_revenue 20.01 0.3 0.2 = 6.003
    ∧ (∀ x uL lL : ℚ, x < 0 → get_total_revenue x uL lL = 0) := by
  refine ⟨fun x uL lL => ⟨fun h => ?_, fun h1 h2 => ?_, fun h => ?_⟩,
    fun uL lL => ?_, fun uL lL => ?_, ?_, fun x uL lL h => ?_⟩
  · simp [get_total_revenue, h]
  · rw [get_total_revenue, if_neg (by linarith), if_pos h2]
  · rw [get_total_revenue, if_neg (by linarith), if_neg (by linarith)]
  · rw [get_total_revenue, if_neg (by norm_num), if_pos (by norm_num)]
  · rw [get_total_revenue, if_neg (by norm_num), if_neg (by norm_num)]
  · rw [get_total_revenue, if_pos (by norm_num)]; norm_num
  · rw [get_total_revenue, if_neg (by linarith), if_neg (by linarith)]

/-- Witness for C1: the three branch hypotheses discharged at concrete
order costs 21, 6 and -5. -/
theorem get_total_revenue_piecewise_check :
    get_total_revenue 21 0.3 0.2 = 21 * 0.3
    ∧ get_total_revenue 6 0.3 0.2 = 6 * 0.2
    ∧ get_total_revenue (-5) 0.3 0.2 = 0 :=
  ⟨(get_total_revenue_piecewise.1 21 0.3 0.2).1 (by norm_num),
   (get_total_revenue_piecewise.1 6 0.3 0.2).2.1 (by norm_num) (by norm_num),
   get_total_revenue_piecewise.2.2.2.2 (-5) 0.3 0.2 (by norm_num)⟩

/-- A list's length splits into the elements satisfying a predicate and
those that do not. -/
theorem countP_add_countP_not {α : Type} (p : α → Bool) :
    ∀ l : List α, l.countP p + l.countP (fun a => !(p a)) = l.length := by
  intro l
  induction l with
  | nil => simp
  | cons x xs ih =>
    by_cases hx : p x
    · simp [List.countP_cons, hx, Nat.add_assoc, Nat.add_comm, Nat.add_left_comm, ih]
      omega
    · simp [List.countP_cons, hx]
      omega

/-- Auxiliary strong-induction form of mem_distincts. -/
theorem mem_distincts_aux {α : Type} [DecidableEq α] :
    ∀ (n : ℕ) (l : List α), l.length ≤ n → ∀ a : α, (a ∈ distincts l ↔ a ∈ l) := by
  intro n
  induction n with
  | zero =>
    intro l h a
    have hl : l = [] := List.length_eq_zero.mp (Nat.le_zero.mp h)
    subst hl
    simp [distincts_nil]
  | succ n ih =>
    intro l h a
    cases l with
    | nil => simp [distincts_nil]
    | cons x xs =>
      rw [distincts_cons]
      simp only [List.mem_cons]
      have hlen : (xs.filter fun y => decide ¬(y = x)).length ≤ n :=
        le_trans (List.length_filter_le _ _) (Nat.le_of_succ_le_succ h)
      constructor
      · rintro (rfl | hmem)
        · exact Or.inl rfl
        · exact Or.inr (List.mem_of_mem_filter ((ih _ hlen a).mp hmem))
      · rintro (rfl | hmem)
        · exact Or.inl rfl
        · by_cases hax : a = x
          · exact Or.inl hax
          · exact Or.inr ((ih _ hlen a).mpr
              (List.mem_filter.mpr ⟨hmem, by simpa using hax⟩))

/-- distincts lists exactly the values occurring in the input. -/
theorem mem_distincts {α : Type} [DecidableEq α] (l : List α) (a : α) :
    a ∈ distincts l ↔ a ∈ l :=
  mem_distincts_aux l.length l le_rfl a

/-- Auxiliary strong-induction form of distincts_filter. -/
theorem distincts_filter_aux {α : Type} [DecidableEq α] :
    ∀ (n : ℕ) (l : List α), l.length ≤ n → ∀ p : α → Bool,
      distincts (l.filter p) = (distincts l).filter p := by
  intro n
  induction n with
  | zero =>
    intro l h p
    have hl : l = [] := List.length_eq_zero.mp (Nat.le_zero.mp h)
    subst hl
    simp [distincts_nil]
  | succ n ih =>
    intro l h p
    cases l with
    | nil => simp [distincts_nil]
    | cons x xs =>
      have hlen : (xs.filter fun y => decide ¬(y = x)).length ≤ n :=
        le_trans (List.length_filter_le _ _) (Nat.le_of_succ_le_succ h)
      have hcomm : ∀ q : α → Bool,
          (xs.filter q).filter (fun y => decide ¬(y = x))
            = (xs.filter fun y => decide ¬(y = x)).filter q := by
        intro q
        rw [List.filter_filter, List.filter_filter]
        exact List.filter_congr fun a _ => Bool.and_comm _ _
      by_cases hpx : p x
      · have hfx : (x :: xs).filter p = x :: xs.filter p := by
          simp [List.filter_cons, hpx]
        rw [hfx, distincts_cons, distincts_cons, hcomm p, ih _ hlen p]
        simp [List.filter_cons, hpx]
      · have hfx : (x :: xs).filter p = xs.filter p := by
          simp [List.filter_cons, hpx]
        rw [hfx, distincts_cons]
        have hrhs : (x :: distincts (xs.filter fun y => decide ¬(y = x))).filter p
            = (distincts (xs.filter fun y => decide ¬(y = x))).filter p := by
          simp [List.filter_cons, hpx]
        rw [hrhs, ← ih _ hlen p, ← hcomm p]
        have hid : (xs.filter p).filter (fun y => decide ¬(y = x)) = xs.filter p := by
          refine List.filter_eq_self.mpr fun a ha => ?_
          have hpa : p a = true := (List.mem_filter.mp ha).2
          have : ¬(a = x) := by
            intro hax
            rw [hax] at hpa
            exact absurd hpa (by simp [hpx])
          simpa using this
        rw [hid]

/-- Filtering commutes with taking first-seen distinct values. -/
theorem distincts_filter {α : Type} [DecidableEq α] (l : List α) (p : α → Bool) :
    distincts (l.filter p) = (distincts l).filter p :=
  distincts_filter_aux l.length l le_rfl p

/-- Auxiliary strong-induction form of distincts_countP_sum. -/
theorem distincts_countP_sum_aux {α : Type} [DecidableEq α] :
    ∀ (n : ℕ) (l : List α), l.length ≤ n →
      ((distincts l).map fun v => l.countP (fun y => y == v)).sum = l.length := by
  intro n
  induction n with
  | zero =>
    intro l h
    have hl : l = [] := List.length_eq_zero.mp (Nat.le_zero.mp h)
    subst hl
    simp [distincts_nil]
  | succ n ih =>
    intro l h
    cases l with
    | nil => simp [distincts_nil]
    | cons x xs =>
      have hlen : (xs.filter fun y => decide ¬(y = x)).length ≤ n :=
        le_trans (List.length_filter_le _ _) (Nat.le_of_succ_le_succ h)
      rw [distincts_cons]
      rw [List.map_cons, List.sum_cons]
      have hmap : (distincts (xs.filter fun y => decide ¬(y = x))).map
            (fun v => (x :: xs).countP (fun y => y == v))
          = (distincts (xs.filter fun y => decide ¬(y = x))).map
            (fun v => (xs.filter fun y => decide ¬(y = x)).countP (fun y => y == v)) := by
        refine List.map_congr_left fun v hv => ?_
        have hvne : ¬(v = x) := by
          have hvf := (mem_distincts _ v).mp hv
          have := (List.mem_filter.mp hvf).2
          simpa using this
        rw [List.countP_cons]
        have hxv : ((x == v) = true) = False := by
          simp [beq_iff_eq]
          intro hxv
          exact hvne hxv.symm
        rw [List.countP_filter]
        simp only [hxv, if_false, Nat.add_zero]
        refine (List.countP_congr fun y _ => ?_).symm
        constructor
        · intro hy
          have h1 : (y == v) = true := by
            have := Bool.and_elim_left hy
            exact this
          exact h1
        · intro hy
          have hyv : y = v := by simpa [beq_iff_eq] using hy
          subst hyv
          simp [beq_iff_eq, hvne]
      rw [hmap, ih _ hlen]
      have hcx : (x :: xs).countP (fun y => y == x) = xs.countP (fun y => y == x) + 1 := by
        rw [List.countP_cons]
        simp
      rw [hcx]
      have hflen : (xs.filter fun y => decide ¬(y = x)).length
          = xs.countP (fun y => decide ¬(y = x)) := by
        rw [List.countP_eq_length_filter]
      rw [hflen]
      have hsplit : xs.countP (fun y => y == x) + xs.countP (fun y => decide ¬(y = x))
          = xs.length := by
        have := countP_add_countP_not (fun y => y == x) xs
        refine Eq.trans ?_ this
        congr 1
        refine List.countP_congr fun y _ => ?_
        simp [beq_iff_eq, decide_not]
      simp only [List.length_cons]
      omega

/-- The per-value occurrence counts over the distinct values of a list sum
to the list's length. -/
theorem distincts_countP_sum {α : Type} [DecidableEq α] (l : List α) :
    ((distincts l).map fun v => l.countP (fun y => y == v)).sum = l.length :=
  distincts_countP_sum_aux l.length l le_rfl

/-- insertSorted yields a permutation of consing the element. -/
theorem insertSorted_perm {α : Type} (le : α → α → Bool) (x : α) :
    ∀ l : List α, (insertSorted le x l).Perm (x :: l) := by
  intro l
  induction l with
  | nil => rfl
  | cons y ys ih =>
    rw [insertSorted]
    by_cases hle : le x y
    · rw [if_pos hle]
    · rw [if_neg hle]
      exact (List.Perm.cons y ih).trans (List.Perm.swap x y ys)

/-- sortBy permutes its input. -/
theorem sortBy_perm {α : Type} (le : α → α → Bool) :
    ∀ l : List α, (sortBy le l).Perm l := by
  intro l
  induction l with
  | nil => rfl
  | cons x xs ih =>
    rw [sortBy]
    exact (insertSorted_perm le x (sortBy le xs)).trans (List.Perm.cons x ih)

/-- The counts returned by value_counts sum to the length of the input. -/
theorem value_counts_sum (xs : List PyVal) (asc : Bool) :
    ((value_counts xs asc).map Prod.snd).sum = xs.length := by
  have hperm : ((value_counts xs asc).map Prod.snd).Perm
      (((distincts xs).map fun v => (v, xs.countP (fun y => y == v))).map Prod.snd) :=
    List.Perm.map _ (sortBy_perm _ _)
  rw [hperm.sum_eq, List.map_map]
  simpa using distincts_countP_sum xs

/-- C3: for every Dataset D and every column C present in D, the sum of
the count column over the full (uncapped) feature_stats result for C
equals the number of rows of D. -/
theorem feature_stats_count_sum (D : Dataset) (c : String) (rs : List DistRow)
    (h : feature_stats D c none = .ok rs) :
    (rs.map DistRow.count).sum = D.rows.length := by
  by_cases hc : c ∈ D.cols
  · rw [feature_stats, if_pos hc] at h
    have hrs : ((value_counts (columnOf D c) false).map fun p =>
        (⟨p.1, p.2, round2 ((p.2 : ℚ) / ((columnOf D c).length : ℚ) * 100)⟩ : DistRow)) = rs := by
      simpa [headOpt] using h
    rw [← hrs, List.map_map]
    have hlen : (columnOf D c).length = D.rows.length := by
      simp [columnOf]
    rw [← hlen]
    simpa using value_counts_sum (columnOf D c) false
  · rw [feature_stats, if_neg hc] at h
    exact absurd h (by simp)

/-- Witness for C3: on a concrete 3-row Dataset the full distribution has
counts 2 and 1, which sum to the 3 rows. -/
theorem feature_stats_count_sum_check :
    feature_stats D3 ("cuisine") none = .ok
      [⟨PyVal.str ("A"), 2, 6667/100⟩, ⟨PyVal.str ("B"), 1, 3333/100⟩]
    ∧ (([⟨PyVal.str ("A"), 2, 6667/100⟩, ⟨PyVal.str ("B"), 1, 3333/100⟩] :
        List DistRow).map DistRow.count).sum = D3.rows.length :=
  ⟨by decide, feature_stats_count_sum D3 ("cuisine") _ (by decide)⟩

/-- C4: for every Dataset, target column and filter column, when no row
satisfies filter_column == filter_value, feature_filtered_stats returns
an empty table (no rows under the suffixed column names) and no division
error is raised. -/
theorem feature_filtered_stats_empty (D : Dataset) (feature fc s : String)
    (asc : Bool)
    (h1 : fc ∈ D.cols) (h2 : feature ∈ D.cols)
    (h3 : ∀ r ∈ D.rows, ¬(r fc = PyVal.str s)) :
    feature_filtered_stats D feature fc (.str s) asc
      = .ok ⟨"count_" ++ strLower s, "percentage_" ++ strLower s, []⟩ := by
  have hfil : (D.rows.filter fun r => r fc == PyVal.str s) = [] :=
    List.filter_eq_nil_iff.mpr fun r hr => by simpa [beq_iff_eq] using h3 r hr
  rw [feature_filtered_stats, if_pos h1, if_pos h2]
  simp [pyLower, Except.map, hfil, value_counts, distincts_nil, sortBy]

/-- Witness for C4: filtering D3 on a value that never occurs yields the
empty table with the lowercased suffixes. -/
theorem feature_filtered_stats_empty_check :
    feature_filtered_stats D3 ("cuisine") ("cuisine") (.str ("Z")) false
      = .ok ⟨"count_z", "percentage_z", []⟩ :=
  (feature_filtered_stats_empty D3 ("cuisine") ("cuisine") ("Z") false
    (by decide) (by decide) (by decide)).trans (by decide)

/-- C9 (implicit): feature_filtered_stats requires a string filter value:
it applies .lower() to it, so every non-string filter value fails with an
AttributeError even when the equality filter would succeed, and every
successful result's column names embed the lowercased filter value. -/
theorem feature_filtered_stats_lower (D : Dataset) (feature fc : String)
    (asc : Bool) (h1 : fc ∈ D.cols) (h2 : feature ∈ D.cols) :
    (∀ q : ℚ, feature_filtered_stats D feature fc (.num q) asc
      = .error .attributeError)
    ∧ (∀ (s : String) (res : FiltResult),
        feature_filtered_stats D feature fc (.str s) asc = .ok res →
        res.countName = "count_" ++ strLower s
        ∧ res.percentageName = "percentage_" ++ strLower s) := by
  constructor
  · intro q
    rw [feature_filtered_stats, if_pos h1, if_pos h2]
    rfl
  · intro s res h
    rw [feature_filtered_stats, if_pos h1, if_pos h2] at h
    simp only [pyLower, Except.map, Except.ok.injEq] at h
    rw [← h]
    exact ⟨rfl, rfl⟩

/-- Witness for C9: on a numeric column whose single row would match the
equality filter, a numeric filter value still fails with AttributeError,
while a string filter value yields lowercased suffixed column names. -/
theorem feature_filtered_stats_lower_check :
    (Dnum.rows.map fun r => r ("qty")) = [PyVal.num 5]
    ∧ feature_filtered_stats Dnum ("qty") ("qty") (.num 5) false
      = .error .attributeError :=
  ⟨by decide,
    (feature_filtered_stats_lower Dnum ("qty") ("qty") false
      (by decide) (by decide)).1 5⟩

/-- C7: metrics_to_dataframe emits exactly one record per named pair in
the caller's insertion order (not lexical order), with each value rounded
to 2 decimals and the unit symbol copied verbatim; empty input yields an
empty table. -/
theorem metrics_to_dataframe_order :
    (∀ kwargs : List (String × ℚ × String),
      (metrics_to_dataframe kwargs).map Metric.metric = kwargs.map Prod.fst)
    ∧ (∀ kwargs : List (String × ℚ × String),
      (metrics_to_dataframe kwargs).map Metric.unit = kwargs.map fun p => p.2.2)
    ∧ (∀ kwargs : List (String × ℚ × String),
      (metrics_to_dataframe kwargs).map Metric.value = kwargs.map fun p => round2 p.2.1)
    ∧ metrics_to_dataframe [] = []
    ∧ metrics_to_dataframe [("b", 1, "x"), ("a", 2, "y")]
      = [⟨"b", "x", 1⟩, ⟨"a", "y", 2⟩] := by
  refine ⟨fun kwargs => ?_, fun kwargs => ?_, fun kwargs => ?_, rfl, by decide⟩
  · rw [metrics_to_dataframe, List.map_map]
    rfl
  · rw [metrics_to_dataframe, List.map_map]
    rfl
  · rw [metrics_to_dataframe, List.map_map]
    rfl

/-- Counterexample to C6 as stated: for the single-row group k with value
0.001, the emitted mean is the rounded 0, not the row's value 0.001 (the
source rounds the aggregate table to 2 decimals). -/
theorem feature_grouped_stats_singleton_cex :
    columnOf Dg ("v") = [PyVal.num 0.001]
    ∧ feature_grouped_stats Dg ("g") ("v") = .ok [⟨PyVal.str ("k"), 0, none⟩] := by
  constructor
  · rfl
  · rfl

/-- C6 corrected: in feature_grouped_stats a group with exactly one row,
of feature value v, yields the record with mean round2 v (the value
itself whenever v has at most 2 decimals) and a missing standard
deviation; when defined, the standard deviation follows the sample (N-1)
convention. -/
theorem feature_grouped_stats_singleton (D : Dataset) (g f : String) (k : PyVal)
    (v : ℚ) (res : List GroupRow)
    (h1 : g ∈ D.cols) (h2 : f ∈ D.cols)
    (h3 : (D.rows.all fun r => (r f).isNum) = true)
    (h4 : ((D.rows.filter fun r => r g == k).map fun r => r f) = [PyVal.num v])
    (h5 : feature_grouped_stats D g f = .ok res) :
    (⟨k, round2 v, none⟩ : GroupRow) ∈ res
    ∧ (∀ (xs : List ℚ) (w : ℚ), sampleVar xs = some w →
        2 ≤ xs.length
        ∧ w = (xs.map fun x => (x - meanQ xs)^2).sum / ((xs.length : ℚ) - 1)) := by
  constructor
  · rw [feature_grouped_stats, if_pos h1, if_pos h2, if_pos h3] at h5
    have hok := (Except.ok.inj h5)
    have hfil_ne : (D.rows.filter fun r => r g == k) ≠ [] := by
      intro hnil
      rw [hnil] at h4
      exact absurd h4 (by simp)
    obtain ⟨r0, hr0⟩ : ∃ r0, r0 ∈ D.rows.filter fun r => r g == k := by
      cases hfl : D.rows.filter fun r => r g == k with
      | nil => exact absurd hfl hfil_ne
      | cons a l => exact ⟨a, hfl ▸ List.mem_cons_self a l⟩
    have hr0mem : r0 ∈ D.rows := List.mem_of_mem_filter hr0
    have hr0k : r0 g = k := by
      simpa [beq_iff_eq] using (List.mem_filter.mp hr0).2
    have hkcol : k ∈ columnOf D g := by
      rw [columnOf]
      exact hr0k ▸ List.mem_map_of_mem (fun r => r g) hr0mem
    have hkeys : k ∈ distincts (columnOf D g) := (mem_distincts _ k).mpr hkcol
    have hvals : ((D.rows.filter fun r => r g == k).map fun r => (r f).toNum)
        = [v] := by
      have hmm : ((D.rows.filter fun r => r g == k).map fun r => (r f).toNum)
          = (((D.rows.filter fun r => r g == k).map fun r => r f).map PyVal.toNum) := by
        rw [List.map_map]
        rfl
      rw [hmm, h4]
      rfl
    rw [← hok]
    refine List.mem_map.mpr ⟨k, hkeys, ?_⟩
    rw [hvals]
    have hm : meanQ [v] = v := by
      simp [meanQ]
    rw [hm]
    rfl
  · intro xs w h
    rw [sampleVar] at h
    by_cases hlen : xs.length ≤ 1
    · rw [if_pos hlen] at h
      exact absurd h (by simp)
    · rw [if_neg hlen] at h
      exact ⟨by omega, (Option.some.inj h).symm⟩

/-- Witness for C6: on the 0.25 single-row dataset, the singleton group's
record carries mean round2 0.25 = 0.25 and a missing std. -/
theorem feature_grouped_stats_singleton_check :
    (⟨PyVal.str ("k"), round2 0.25, none⟩ : GroupRow)
      ∈ ([⟨PyVal.str ("k"), 1/4, none⟩] : List GroupRow) :=
  (feature_grouped_stats_singleton Dg2 ("g") ("v") (PyVal.str ("k")) 0.25
    [⟨PyVal.str ("k"), 1/4, none⟩]
    (by decide) (by decide) (by decide) (by decide) (by rfl)).1

/-- C10 (implicit): top_and_bottom_restaurants always groups by the fixed
column name "restaurant_name": every Dataset lacking that column fails
with the column-not-found error, regardless of the feature argument. -/
theorem top_and_bottom_missing_column (D : Dataset) (feature : String) (t : Nat)
    (h : ¬ (("restaurant_name" : String) ∈ D.cols)) :
    top_and_bottom_restaurants D feature t = .error .columnNotFound := by
  rw [top_and_bottom_restaurants, if_neg h]

/-- Witness for C10: D3 has only a cuisine column, so the reporter fails
on it even though the requested feature column exists. -/
theorem top_and_bottom_missing_column_check :
    top_and_bottom_restaurants D3 ("cuisine") 10 = .error .columnNotFound :=
  top_and_bottom_missing_column D3 ("cuisine") 10 (by decide)

/-- indexFrom pairs each element with its position. -/
theorem indexFrom_snd_mem {α : Type} :
    ∀ (l : List α) (n : Nat) (p : Nat × α), p ∈ indexFrom n l → p.2 ∈ l := by
  intro l
  induction l with
  | nil => intro n p hp; exact absurd hp (List.not_mem_nil p)
  | cons x xs ih =>
    intro n p hp
    rw [indexFrom] at hp
    rcases List.mem_cons.mp hp with rfl | hp
    · exact List.mem_cons_self x xs
    · exact List.mem_cons_of_mem _ (ih (n + 1) p hp)

/-- C5: the delivery filter keeps a row exactly when its entity's row
count strictly exceeds the threshold, and every entity appearing in the
ranked output has row count strictly above the threshold. -/
theorem threshold_strict (D : Dataset) (t : Nat) :
    (∀ r ∈ D.rows, (r ∈ qualifiedRows D t ↔ t < groupCount D (nameOf r)))
    ∧ (∀ (feature : String) (row : RankedRow),
        row ∈ rankedRows D feature t → t < groupCount D row.name) := by
  constructor
  · intro r hr
    constructor
    · intro hq
      exact of_decide_eq_true (List.mem_filter.mp hq).2
    · intro hlt
      exact List.mem_filter.mpr ⟨hr, decide_eq_true hlt⟩
  · intro feature row hrow
    rw [rankedRows, concatTopBottom] at hrow
    obtain ⟨p, hp, rfl⟩ := List.mem_map.mp hrow
    have hpm : p ∈ indexFrom 0 (average_time D feature t) := by
      rcases List.mem_append.mp hp with h | h
      · exact List.mem_of_mem_take h
      · exact List.mem_of_mem_drop h
    have hsnd : p.2 ∈ average_time D feature t := indexFrom_snd_mem _ _ _ hpm
    rw [average_time] at hsnd
    obtain ⟨q, hq, hqe⟩ := List.mem_map.mp hsnd
    have hqbase := (sortBy_perm (fun a b : PyVal × ℚ => decide (a.2 ≤ b.2)) _).mem_iff.mp hq
    obtain ⟨k, hk, rfl⟩ := List.mem_map.mp hqbase
    have hkq : k ∈ (qualifiedRows D t).map nameOf := (mem_distincts _ k).mp hk
    obtain ⟨r, hrq, hrk⟩ := List.mem_map.mp hkq
    have hlt : t < D.rows.countP fun s => nameOf s == nameOf r :=
      of_decide_eq_true (List.mem_filter.mp hrq).2
    have h21 : p.2.1 = k := by
      rw [← hqe]
    show t < groupCount D p.2.1
    rw [h21, ← hrk]
    exact hlt

/-- Witness for C5: in Drest with threshold 1, restaurant A (2
deliveries) appears in the output and its count indeed exceeds 1. -/
theorem threshold_strict_check :
    ((⟨0, PyVal.str ("A"), 10⟩ : RankedRow) ∈ rankedRows Drest ("time") 1)
    ∧ 1 < groupCount Drest (PyVal.str ("A")) :=
  ⟨by decide,
    (threshold_strict Drest 1).2 ("time") ⟨0, PyVal.str ("A"), 10⟩ (by decide)⟩

/-- Mapping after filtering by a predicate on the image. -/
theorem map_filter_comp {α β : Type} (f : α → β) (p : β → Bool) :
    ∀ l : List α, (l.filter fun x => p (f x)).map f = (l.map f).filter p := by
  intro l
  induction l with
  | nil => rfl
  | cons x xs ih =>
    by_cases hp : p (f x)
    · simp [List.filter_cons, hp, ih]
    · simp [List.filter_cons, hp, ih]

/-- The delivery filter factors through the entity of each row. -/
theorem qualifiedRows_map_nameOf (D : Dataset) (t : Nat) :
    (qualifiedRows D t).map nameOf
      = (D.rows.map nameOf).filter fun k => decide (t < groupCount D k) :=
  map_filter_comp nameOf (fun k => decide (t < groupCount D k)) D.rows

/-- The keys of the per-entity means are exactly the qualifying entities. -/
theorem average_time_keys (D : Dataset) (t : Nat) :
    distincts ((qualifiedRows D t).map nameOf) = qualifyingEntities D t := by
  rw [qualifyingEntities, ← distincts_filter]
  exact congrArg distincts (qualifiedRows_map_nameOf D t)

/-- The ranking has one row per qualifying entity. -/
theorem average_time_length (D : Dataset) (feature : String) (t : Nat) :
    (average_time D feature t).length = (qualifyingEntities D t).length := by
  rw [average_time, List.length_map, (sortBy_perm _ _).length_eq, List.length_map,
    average_time_keys]

/-- A list of length 7 destructures into its seven elements. -/
theorem exists_seven {α : Type} (l : List α) (h : l.length = 7) :
    ∃ a b c d e f g : α, l = [a, b, c, d, e, f, g] := by
  rcases l with _ | ⟨a, l⟩
  · exact absurd h (by simp)
  rcases l with _ | ⟨b, l⟩
  · exact absurd h (by simp)
  rcases l with _ | ⟨c, l⟩
  · exact absurd h (by simp)
  rcases l with _ | ⟨d, l⟩
  · exact absurd h (by simp)
  rcases l with _ | ⟨e, l⟩
  · exact absurd h (by simp)
  rcases l with _ | ⟨f, l⟩
  · exact absurd h (by simp)
  rcases l with _ | ⟨g, l⟩
  · exact absurd h (by simp)
  rcases l with _ | ⟨x, l⟩
  · exact ⟨a, b, c, d, e, f, g, rfl⟩
  · refine absurd h ?_
    simp only [List.length_cons]
    omega

/-- On a ranking of exactly 7 records, head-5 ++ tail-5 has 10 rows and
the two halves share the 3 records ranked 3rd to 5th. -/
theorem concatTopBottom_seven (l : List (PyVal × ℚ)) (h : l.length = 7) :
    (concatTopBottom l).length = 10 ∧ halvesOverlap (concatTopBottom l) = 3 := by
  obtain ⟨a, b, c, d, e, f, g, rfl⟩ := exists_seven l h
  exact ⟨rfl, rfl⟩

/-- C2 corrected: when exactly 7 entities qualify, the returned sequence
has 10 rows, not 7: the head-5 and tail-5 of the 7-row ranking are
concatenated without deduplication, so the two halves share exactly the
3 records ranked 3rd, 4th and 5th. -/
theorem ranked_seven_rows (D : Dataset) (feature : String) (t : Nat)
    (h1 : ("restaurant_name" : String) ∈ D.cols) (h2 : feature ∈ D.cols)
    (h3 : ((qualifiedRows D t).all fun r => (r feature).isNum) = true)
    (h7 : (qualifyingEntities D t).length = 7) :
    top_and_bottom_restaurants D feature t = .ok (rankedRows D feature t)
    ∧ (rankedRows D feature t).length = 10
    ∧ halvesOverlap (rankedRows D feature t) = 3 := by
  have hlen : (average_time D feature t).length = 7 :=
    (average_time_length D feature t).trans h7
  refine ⟨?_, (concatTopBottom_seven _ hlen).1, (concatTopBottom_seven _ hlen).2⟩
  rw [top_and_bottom_restaurants, if_pos h1, if_pos h2, if_pos h3]

/-- Counterexample to C2 as stated: D7 has exactly 7 qualifying entities
at threshold 0, yet the returned sequence has 10 rows, not 7. -/
theorem ranked_seven_rows_cex :
    (qualifyingEntities D7 0).length = 7
    ∧ (rankedRows D7 ("time") 0).length = 10 :=
  ⟨by decide, by decide⟩

/-- Witness for C2: D7 at threshold 0 discharges the hypotheses; its
ranked output has 10 rows, 3 of them shared between the halves. -/
theorem ranked_seven_rows_check :
    top_and_bottom_restaurants D7 ("time") 0 = .ok (rankedRows D7 ("time") 0)
    ∧ (rankedRows D7 ("time") 0).length = 10
    ∧ halvesOverlap (rankedRows D7 ("time") 0) = 3 :=
  ranked_seven_rows D7 ("time") 0 (by decide) (by decide) (by decide) (by decide)

/-- indexFrom preserves length. -/
theorem indexFrom_length {α : Type} :
    ∀ (l : List α) (n : Nat), (indexFrom n l).length = l.length := by
  intro l
  induction l with
  | nil => intro n; rfl
  | cons x xs ih =>
    intro n
    rw [indexFrom, List.length_cons, List.length_cons, ih]

/-- Taking commutes with indexing. -/
theorem indexFrom_take {α : Type} :
    ∀ (l : List α) (n k : Nat), (indexFrom n l).take k = indexFrom n (l.take k) := by
  intro l
  induction l with
  | nil => intro n k; simp [indexFrom]
  | cons x xs ih =>
    intro n k
    cases k with
    | zero => rfl
    | succ k =>
      rw [indexFrom, List.take_succ_cons, List.take_succ_cons, indexFrom, ih]

/-- Dropping k rows shifts the index base by k. -/
theorem indexFrom_drop {α : Type} :
    ∀ (l : List α) (n k : Nat), (indexFrom n l).drop k = indexFrom (n + k) (l.drop k) := by
  intro l
  induction l with
  | nil => intro n k; simp [indexFrom]
  | cons x xs ih =>
    intro n k
    cases k with
    | zero => rfl
    | succ k =>
      rw [indexFrom, List.drop_succ_cons, List.drop_succ_cons, ih (n + 1) k]
      congr 1
      omega

/-- A list of length 5 destructures into its five elements. -/
theorem exists_five {α : Type} (l : List α) (h : l.length = 5) :
    ∃ a b c d e : α, l = [a, b, c, d, e] := by
  rcases l with _ | ⟨a, l⟩
  · exact absurd h (by simp)
  rcases l with _ | ⟨b, l⟩
  · exact absurd h (by simp)
  rcases l with _ | ⟨c, l⟩
  · exact absurd h (by simp)
  rcases l with _ | ⟨d, l⟩
  · exact absurd h (by simp)
  rcases l with _ | ⟨e, l⟩
  · exact absurd h (by simp)
  rcases l with _ | ⟨x, l⟩
  · exact ⟨a, b, c, d, e, rfl⟩
  · refine absurd h ?_
    simp only [List.length_cons]
    omega

/-- On a ranking of at least 10 records, the styling marks exactly the
5th row: its reset-index label is 4 and the tail-5 labels are all at
least 5. -/
theorem concatTopBottom_borders (l : List (PyVal × ℚ)) (h10 : 10 ≤ l.length) :
    styledBorders (concatTopBottom l)
      = [false, false, false, false, true, false, false, false, false, false] := by
  have htake : (l.take 5).length = 5 := by
    rw [List.length_take]
    omega
  have hdroplen : (l.drop (l.length - 5)).length = 5 := by
    rw [List.length_drop]
    omega
  obtain ⟨a, b, c, d, e, hT⟩ := exists_five _ htake
  obtain ⟨p, q, r, s, u, hD⟩ := exists_five _ hdroplen
  have hm : 5 ≤ l.length - 5 := by omega
  rw [concatTopBottom, styledBorders, indexFrom_length, indexFrom_take,
    indexFrom_drop, Nat.zero_add, hT, hD]
  simp only [indexFrom, List.map_append, List.map_cons, List.map_nil,
    add_upper_border]
  have hne : ∀ j : Nat, 5 ≤ j → (j == 4) = false := by
    intro j hj
    rw [beq_eq_false_iff_ne]
    omega
  rw [hne (l.length - 5) hm, hne (l.length - 5 + 1) (by omega),
    hne (l.length - 5 + 1 + 1) (by omega),
    hne (l.length - 5 + 1 + 1 + 1) (by omega),
    hne (l.length - 5 + 1 + 1 + 1 + 1) (by omega)]
  rfl

/-- C8 corrected: the boundary marker is attached to the fixed
reset-index label 4 (the styling checks row.name == 4), not to the end of
the actual bottom half. When at least 10 entities qualify, this marks
exactly the 5th row, the last bottom-half record; with fewer qualifying
entities the marker does not move with the split point. -/
theorem border_marks_label4 (D : Dataset) (feature : String) (t : Nat)
    (h1 : ("restaurant_name" : String) ∈ D.cols) (h2 : feature ∈ D.cols)
    (h3 : ((qualifiedRows D t).all fun r => (r feature).isNum) = true)
    (h10 : 10 ≤ (qualifyingEntities D t).length) :
    top_and_bottom_restaurants D feature t = .ok (rankedRows D feature t)
    ∧ styledBorders (rankedRows D feature t)
      = [false, false, false, false, true, false, false, false, false, false] := by
  have hlen : 10 ≤ (average_time D feature t).length := by
    rw [average_time_length]
    exact h10
  exact ⟨by rw [top_and_bottom_restaurants, if_pos h1, if_pos h2, if_pos h3],
    concatTopBottom_borders _ hlen⟩

/-- Counterexample to C8 as stated: with one qualifying entity the output
is nonempty (2 rows; the split after its bottom half falls after row 0),
yet no row at all carries the border marker, because the marker looks for
the fixed label 4. -/
theorem border_marks_label4_cex :
    (rankedRows D1 ("time") 0).length = 2
    ∧ styledBorders (rankedRows D1 ("time") 0) = [false, false] :=
  ⟨by decide, by decide⟩

/-- Witness for C8: on the 10-entity Dataset the marker sits exactly on
the 5th row. -/
theorem border_marks_label4_check :
    top_and_bottom_restaurants D10 ("time") 0 = .ok (rankedRows D10 ("time") 0)
    ∧ styledBorders (rankedRows D10 ("time") 0)
      = [false, false, false, false, true, false, false, false, false, false] :=
  border_marks_label4 D10 ("time") 0 (by decide) (by decide) (by decide) (by decide)
